import Mathlib

/-
Verification of the query-translation pipeline in pynslcd/common.py:
name validation, entry reconciliation (Search.handle_entry), filter
construction (Search.mk_filter), base iteration (Search.__call__),
the request dispatcher (Request.handle_request / __call__) and the
DN utility get_rdn_value.  Python dictionaries are modelled as
association lists, Python values that can be strings or numbers as
an explicit sum type, exceptions as an explicit error monad.
-/

set_option autoImplicit false

namespace Pynslcd

/-- Error values corresponding to the Python exceptions that the code
under verification can raise while handling one entry. -/
inductive Err where
  | keyError (key : String)
  | indexError
deriving DecidableEq, Repr

/-- Errors raised by the external directory collaborator
(ldap.NO_SUCH_OBJECT and the remaining ldap errors). -/
inductive LdapError where
  | noSuchObject
  | other (code : Nat)
deriving DecidableEq, Repr

/-- An error escaping from Search.__call__: either a directory error or a
Python exception raised inside handle_entry. -/
inductive RunErr where
  | ldap (e : LdapError)
  | py (e : Err)
deriving DecidableEq, Repr

/-- A Python scalar request-parameter value: the request parameters carry
strings or numbers. -/
inductive PyVal where
  | str (s : String)
  | int (n : Int)
deriving DecidableEq, Repr

/-- Python truthiness of a scalar: the empty string and zero are falsy. -/
def PyVal.truthy : PyVal → Bool
  | .str s => !s.isEmpty
  | .int n => n != 0

/-- Python str() applied to a scalar parameter value. -/
def pyStr : PyVal → String
  | .str s => s
  | .int n => toString n

/-- Python 2 str.lower on one byte: only ASCII letters change case. -/
def lowerChar (c : Char) : Char :=
  if 'A' ≤ c ∧ c ≤ 'Z' then Char.ofNat (c.toNat + 32) else c

/-- Python 2 str.lower. -/
def lowerStr (s : String) : String :=
  String.mk (s.data.map lowerChar)

/-- A distinguished name in the parsed form produced by ldap.dn.str2dn:
a sequence of relative-name components, each a list of
(attribute, value, flags) triples. -/
abbrev Dn := List (List (String × String × Nat))

/-- Attribute maps and logical entries as they come from the directory and
flow through translation, canonicalization and the checks: a Python
dict from attribute name to list of string values, modelled as an
association list (first binding wins). -/
abbrev AttrMap := List (String × List String)

/-- The logical entry as returned to the caller: after the
limit_attributes step the dict is heterogeneous, holding the directory
strings for untouched fields and the raw request-parameter scalar for
overwritten ones, so its value lists hold scalars. -/
abbrev PyAttrMap := List (String × List PyVal)

/-- The identity view of a string-valued dict as a scalar-valued dict:
every directory-derived value is a Python string, so the dict reaching
the limit_attributes step is this embedding of the checked dict. -/
def strEntry (m : AttrMap) : PyAttrMap :=
  m.map (fun p => (p.1, p.2.map PyVal.str))

/-- Lookup in an association list, mirroring Python dict indexing
(first binding for a key is the authoritative one). -/
def alookup {β : Type} : List (String × β) → String → Option β
  | [], _ => none
  | (k, v) :: rest, key => if k = key then some v else alookup rest key

/-- Python dict assignment d[key] = value: replace the binding if the key
is present, append it otherwise. -/
def dictSet {β : Type} (m : List (String × β)) (key : String) (value : β) :
    List (String × β) :=
  match m with
  | [] => [(key, value)]
  | (k, v) :: rest =>
      if k = key then (key, value) :: rest else (k, v) :: dictSet rest key value

/-- The external Attributes collaborator (attmap module): resolves logical
field names to directory attribute names, translates raw directory
attribute maps to logical entries, and lists the directory attributes
to request. -/
structure AttributeMapper where
  resolve : String → String
  translate : AttrMap → AttrMap
  attributes : List String

/-- The configuration of one Search object: the module-level data
(attmap, filter, bases, scope), the request parameters, and the five
field classification lists defined by each Search subclass. -/
structure SearchCfg where
  attmap : AttributeMapper
  filter : String
  parameters : List (String × PyVal)
  bases : List String
  scope : Nat
  attributes : List String
  canonical_first : List String
  required : List String
  case_sensitive : List String
  case_insensitive : List String
  limit_attributes : List String

/-- get_rdn_value: build a dict from the (attribute, value) pairs of the
first relative-name component (later pairs override earlier ones) and
index it with the requested attribute.  Indexing an empty DN raises
IndexError and a missing attribute raises KeyError, exactly as the
Python expression dict(...)[attribute] does. -/
def get_rdn_value (dn : Dn) (att : String) : Except Err String :=
  match dn with
  | [] => .error .indexError
  | rdn :: _ =>
      match alookup (rdn.map (fun t => (t.1, t.2.1))).reverse att with
      | some v => .ok v
      | none => .error (.keyError att)

/-- One canonical_first update of a value list: Python list.remove deletes
only the first occurrence of the value, then the DN-derived value is
prepended. -/
def canonValues (primary : String) (values : List String) : List String :=
  if primary ∈ values then primary :: values.erase primary else primary :: values

/-- The canonical_first loop of handle_entry: for each listed field, fetch
the DN-derived value (which may raise), and when it is truthy, read the
field's current values (which raises KeyError when the field is absent)
and reinstall them with the DN-derived value first. -/
def canonicalFold (resolve : String → String) (dn : Dn) :
    List String → AttrMap → Except Err AttrMap
  | [], m => .ok m
  | attr :: rest, m =>
      match get_rdn_value dn (resolve attr) with
      | .error e => .error e
      | .ok primary =>
          if primary = "" then canonicalFold resolve dn rest m
          else
            match alookup m attr with
            | none => .error (.keyError attr)
            | some values =>
                canonicalFold resolve dn rest (dictSet m attr (canonValues primary values))

/-- Truthiness of attributes.get(attr, None): false for a missing key and
for an empty value list. -/
def listTruthy {β : Type} : Option (List β) → Bool
  | some (_ :: _) => true
  | _ => false

/-- The required loop of handle_entry: the entry passes when every listed
field has a truthy (present and non-empty) value list. -/
def requiredOk (required : List String) (m : AttrMap) : Bool :=
  required.all (fun attr => listTruthy (alookup m attr))

/-- One confirmation check of the case_sensitive / case_insensitive loops.
A missing or falsy request parameter short-circuits the check; a truthy
parameter forces a read of attributes[attr] (KeyError when absent) and a
membership test, verbatim or after str.lower on both sides. -/
def checkOnePasses (params : List (String × PyVal)) (m : AttrMap)
    (caseFold : Bool) (attr : String) : Except Err Bool :=
  match alookup params attr with
  | none => .ok true
  | some v =>
      if v.truthy then
        match alookup m attr with
        | none => .error (.keyError attr)
        | some values =>
            if caseFold then
              .ok (values.any (fun x => lowerStr x == lowerStr (pyStr v)))
            else
              .ok (decide (pyStr v ∈ values))
      else .ok true

/-- One of the two confirmation loops of handle_entry: fields are checked
in list order and the first failing check rejects the entry. -/
def checkAttrs (params : List (String × PyVal)) (m : AttrMap)
    (caseFold : Bool) : List String → Except Err Bool
  | [] => .ok true
  | attr :: rest =>
      match checkOnePasses params m caseFold attr with
      | .error e => .error e
      | .ok true => checkAttrs params m caseFold rest
      | .ok false => .ok false

/-- The limit_attributes loop of handle_entry: each listed field that has a
request parameter is overwritten with the one-element list holding the
raw parameter value, exactly as attributes[attr] =
[self.parameters[attr]] stores the scalar unconverted. -/
def limitFold (params : List (String × PyVal)) :
    List String → PyAttrMap → PyAttrMap
  | [], m => m
  | attr :: rest, m =>
      match alookup params attr with
      | some v => limitFold params rest (dictSet m attr [v])
      | none => limitFold params rest m

/-- Search.handle_entry: translate the raw attributes, canonicalize the
canonical_first fields, then run the required, case-sensitive and
case-insensitive checks in order; a failing check rejects the entry
(ok none), and the accepted entry is returned after the
limit_attributes overwrite.  At that point the dict, which so far held
only directory strings, becomes heterogeneous (strEntry is the identity
view of those strings as scalars). -/
def handle_entry (S : SearchCfg) (dn : Dn) (attributes : AttrMap) :
    Except Err (Option (Dn × PyAttrMap)) :=
  match canonicalFold S.attmap.resolve dn S.canonical_first
      (S.attmap.translate attributes) with
  | .error e => .error e
  | .ok attrs =>
      if requiredOk S.required attrs then
        match checkAttrs S.parameters attrs false S.case_sensitive with
        | .error e => .error e
        | .ok false => .ok none
        | .ok true =>
            match checkAttrs S.parameters attrs true S.case_insensitive with
            | .error e => .error e
            | .ok false => .ok none
            | .ok true =>
                .ok (some (dn, limitFold S.parameters S.limit_attributes (strEntry attrs)))
      else .ok none

/-- Modelled from the spec: ldap.filter.escape_filter_chars from the
external directory library, which is not part of this repository.  The
spec requires standard filter-character escaping of every parameter
value, escaping at least the asterisk, the parentheses, the backslash
and NUL; each such byte becomes a backslash followed by its two hex
digits. -/
def escape_filter_chars (s : String) : String :=
  String.join (s.data.map (fun c =>
    if c = '\\' then "\\5c"
    else if c = '*' then "\\2a"
    else if c = '(' then "\\28"
    else if c = ')' then "\\29"
    else if c = '\x00' then "\\00"
    else String.singleton c))

/-- Python str.join with a separator, as used by ')('.join(...). -/
def joinSep (sep : String) : List String → String
  | [] => ""
  | [x] => x
  | x :: y :: rest => x ++ sep ++ joinSep sep (y :: rest)

/-- Search.mk_filter: with a non-empty parameter dict the filter is the
conjunction of the base filter with one attribute=value term per
parameter, built by joining the terms with ")(" inside "(&...(...))";
with no parameters the base filter is returned unchanged. -/
def mk_filter (S : SearchCfg) : String :=
  match S.parameters with
  | [] => S.filter
  | _ =>
      "(&" ++ S.filter ++ "(" ++
        joinSep ")(" (S.parameters.map
          (fun p => S.attmap.resolve p.1 ++ "=" ++ escape_filter_chars (pyStr p.2))) ++
      "))"

/-- The external directory connection: search_s takes a base, a scope, a
filter and the attribute list, and either fails or returns a list of
entries whose first component is a possibly-missing DN (referral
results have no DN). -/
abbrev Conn := String → Nat → String → List String →
  Except LdapError (List (Option Dn × AttrMap))

/-- The inner loop of Search.__call__ over the results of one base:
entries without a DN are skipped, each remaining entry goes through
handle_entry, rejected entries are dropped and accepted entries are
yielded in directory order.  Exceptions from handle_entry propagate. -/
def processEntries (S : SearchCfg) :
    List (Option Dn × AttrMap) → Except Err (List (Dn × PyAttrMap))
  | [] => .ok []
  | (dnOpt, rawAttrs) :: rest =>
      match dnOpt with
      | none => processEntries S rest
      | some dn =>
          match handle_entry S dn rawAttrs with
          | .error e => .error e
          | .ok none => processEntries S rest
          | .ok (some entry) =>
              match processEntries S rest with
              | .error e => .error e
              | .ok entries => .ok (entry :: entries)

/-- Search.__call__: iterate the bases in order with the filter built once
by mk_filter; a NO_SUCH_OBJECT failure on one base is swallowed and the
remaining bases are still searched, any other directory error and any
exception from handle_entry propagate. -/
def searchBases (S : SearchCfg) (conn : Conn) :
    List String → Except RunErr (List (Dn × PyAttrMap))
  | [] => .ok []
  | base :: rest =>
      match conn base S.scope (mk_filter S) S.attributes with
      | .error .noSuchObject => searchBases S conn rest
      | .error (.other code) => .error (.ldap (.other code))
      | .ok found =>
          match processEntries S found with
          | .error e => .error (.py e)
          | .ok accepted =>
              match searchBases S conn rest with
              | .error e => .error e
              | .ok more => .ok (accepted ++ more)

/-- Search.__call__ applied to the configured base list. -/
def searchCall (S : SearchCfg) (conn : Conn) : Except RunErr (List (Dn × PyAttrMap)) :=
  searchBases S conn S.bases

/-- One item written to the result stream: an int32 (version tag, action
code, result code) or one serialized entry record (the per-request-type
write method, abstract here, emits exactly one record per entry). -/
inductive WireItem where
  | int32 (n : Int)
  | entryRecord (dn : Dn) (attrs : PyAttrMap)
deriving DecidableEq, Repr

/-- TnsFileStream.write_int32 on the modelled output stream. -/
def write_int32 (fp : List WireItem) (n : Int) : List WireItem :=
  fp ++ [.int32 n]

/-- Request.handle_request: write one record per entry yielded by the
search, then the end-of-results code.  An error escaping from the
search propagates as the Python exception does, in which case no
end-of-results marker is produced. -/
def handle_request (resultEnd : Int) (S : SearchCfg) (conn : Conn)
    (fp : List WireItem) : Except RunErr (List WireItem) :=
  match searchCall S conn with
  | .error e => .error e
  | .ok entries =>
      .ok (write_int32
        (entries.foldl (fun s e => s ++ [WireItem.entryRecord e.1 e.2]) fp)
        resultEnd)

/-- Request.__call__ after the parameters have been read: write the
protocol version and the action code, then dispatch to
handle_request. -/
def requestCall (version action resultEnd : Int) (S : SearchCfg) (conn : Conn)
    (fp : List WireItem) : Except RunErr (List WireItem) :=
  handle_request resultEnd S conn (write_int32 (write_int32 fp version) action)

/-- Membership of a byte in an inclusive ASCII range. -/
def between (lo hi c : Char) : Bool :=
  decide (lo ≤ c) && decide (c ≤ hi)

/-- The first character class of _validname_re, with re.IGNORECASE making
the letter range match both cases. -/
def isNameFirst (c : Char) : Bool :=
  between 'a' 'z' c || between 'A' 'Z' c || between '0' '9' c ||
    c == '.' || c == '_' || c == '@' || c == '$'

/-- The interior character class of _validname_re: the raw pattern escapes
a literal backslash inside the class, so the backslash is allowed. -/
def isNameInner (c : Char) : Bool :=
  isNameFirst c || c == ' ' || c == '\\' || c == '~' || c == '-'

/-- The final character class of _validname_re. -/
def isNameLast (c : Char) : Bool :=
  isNameFirst c || c == '~' || c == '-'

/-- The anchored body of _validname_re on a newline-free character list:
one first-class character, at most 98 interior-class characters, one
last-class character. -/
def matchesCore (cs : List Char) : Bool :=
  match cs with
  | [] => false
  | c1 :: rest =>
      match rest.getLast? with
      | none => false
      | some cl =>
          isNameFirst c1 && decide (rest.length ≤ 99) &&
            rest.dropLast.all isNameInner && isNameLast cl

/-- isvalidname: bool(_validname_re.match(name)).  The pattern is anchored
with a dollar, which in Python also matches just before a newline that
ends the string, so a valid name followed by one final newline is
accepted as well. -/
def isvalidname (name : String) : Bool :=
  matchesCore name.data ||
    (match name.data.getLast? with
     | some c => (c == '\n') && matchesCore name.data.dropLast
     | none => false)

/-- The grammar exactly as the claim states it: 2 to 100 characters, first
character in the first class, last character in the last class, and
interior characters in the claimed interior class, which does not
include the backslash; no allowance for a trailing newline. -/
def isvalidname_claimed (name : String) : Bool :=
  let cs := name.data
  decide (2 ≤ cs.length) && decide (cs.length ≤ 100) &&
    (match cs.head? with | some c => isNameFirst c | none => false) &&
    (match cs.getLast? with | some c => isNameLast c | none => false) &&
    (cs.drop 1).dropLast.all
      (fun c => isNameFirst c || c == ' ' || c == '~' || c == '-')

/-- The corrected grammar of one name body, stated structurally: a first
character, at most 98 interior characters drawn from the class that
includes the backslash, and a last character. -/
def ValidCore (cs : List Char) : Prop :=
  ∃ c1 mid cl, cs = c1 :: mid ++ [cl] ∧ mid.length ≤ 98 ∧
    isNameFirst c1 = true ∧ (∀ c ∈ mid, isNameInner c = true) ∧
    isNameLast cl = true

/-- An attribute mapper that maps every name to itself and keeps raw
attribute maps unchanged, used for the concrete scenarios. -/
def idMapper : AttributeMapper :=
  { resolve := fun a => a, translate := fun m => m, attributes := ["uid"] }

/-- A baseline search configuration with empty classification lists, used
as the starting point of the concrete scenarios. -/
def baseCfg : SearchCfg :=
  { attmap := idMapper
    filter := "(objectClass=posixAccount)"
    parameters := []
    bases := []
    scope := 2
    attributes := ["uid"]
    canonical_first := []
    required := []
    case_sensitive := []
    case_insensitive := []
    limit_attributes := [] }

/-- The parsed DN uid=alice,dc=example. -/
def dnAlice : Dn := [[("uid", "alice", 1)], [("dc", "example", 1)]]

/-- Search configuration whose only policy is canonical_first on uid. -/
def cfgC1dup : SearchCfg := { baseCfg with canonical_first := ["uid"] }

/-- Search configuration where the canonical_first field is also subject to
the limit_attributes overwrite, with a supplied parameter. -/
def cfgC1limit : SearchCfg :=
  { baseCfg with
      canonical_first := ["uid"]
      limit_attributes := ["uid"]
      parameters := [("uid", .str "bob")] }

/-- Search configuration that requires the uid field. -/
def cfgC2 : SearchCfg := { baseCfg with required := ["uid"] }

/-- Search configuration with a case-sensitive uid check whose supplied
parameter value is the empty (falsy) string. -/
def cfgC3 : SearchCfg :=
  { baseCfg with case_sensitive := ["uid"], parameters := [("uid", .str "")] }

/-- Search configuration with truthy case-sensitive and case-insensitive
checks on uid. -/
def cfgC3w : SearchCfg :=
  { baseCfg with
      case_sensitive := ["uid"]
      case_insensitive := ["uid"]
      parameters := [("uid", .str "Alice")] }

/-- Search configuration with a case-sensitive check on uidNumber whose
supplied parameter is an integer, without a limit overwrite. -/
def cfgC3int : SearchCfg :=
  { baseCfg with
      case_sensitive := ["uidNumber"]
      parameters := [("uidNumber", .int 1000)] }

/-- Search configuration with a case-sensitive check on uidNumber whose
supplied parameter is an integer and which is also overwritten by the
limit_attributes step. -/
def cfgC3intLimit : SearchCfg :=
  { baseCfg with
      case_sensitive := ["uidNumber"]
      limit_attributes := ["uidNumber"]
      parameters := [("uidNumber", .int 1000)] }

/-- Search configuration with two request parameters for the filter. -/
def cfgC4 : SearchCfg :=
  { baseCfg with parameters := [("uid", .str "a*c"), ("uidNumber", .int 1000)] }

/-- Directory connection where base b1 raises NO_SUCH_OBJECT and every
other base returns one valid entry. -/
def connC5 : Conn := fun base _ _ _ =>
  if base = "b1" then .error .noSuchObject
  else .ok [(some dnAlice, [("uid", ["alice"])])]

/-- Search configuration paired with connC5. -/
def cfgC5 : SearchCfg := { baseCfg with required := ["uid"] }

/-- Directory connection returning no entries on every base. -/
def connC6 : Conn := fun _ _ _ _ => .ok []

/-- Search configuration with one base and no matches, for the zero-match
dispatcher scenario. -/
def cfgC6 : SearchCfg := { baseCfg with bases := ["ou=people,dc=example"] }

/-- Search configuration with a case-sensitive check on uid whose supplied
parameter is falsy. -/
def cfgC9 : SearchCfg :=
  { baseCfg with case_sensitive := ["uid"], parameters := [("uid", .str "")] }

/-- Search configuration with two case-sensitive fields where the first
check fails on the entry and the second field is absent from it. -/
def cfgC10 : SearchCfg :=
  { baseCfg with
      case_sensitive := ["a", "b"]
      parameters := [("a", .str "x"), ("b", .str "y")] }

/-- Search configuration with two case-sensitive fields where the first
check passes on the entry and the second field is absent from it. -/
def cfgC10w : SearchCfg :=
  { baseCfg with
      case_sensitive := ["a", "b"]
      parameters := [("a", .str "z"), ("b", .str "y")] }

/-! Helper lemmas about the dictionary operations. -/

theorem alookup_dictSet {β : Type} (m : List (String × β)) (key : String)
    (value : β) (k : String) :
    alookup (dictSet m key value) k = if k = key then some value else alookup m k := by
  induction m with
  | nil =>
      by_cases h : k = key
      · simp [dictSet, alookup, h]
      · simp [dictSet, alookup, h, Ne.symm h]
  | cons hd tl ih =>
      obtain ⟨k0, v0⟩ := hd
      by_cases h0 : k0 = key
      · subst h0
        by_cases h : k = k0
        · simp [dictSet, alookup, h]
        · simp [dictSet, alookup, h, Ne.symm h]
      · by_cases h : k = k0
        · subst h
          simp [dictSet, alookup, h0, Ne.symm h0]
        · simp [dictSet, alookup, h0, h, Ne.symm h, ih]

theorem canonValues_head (primary : String) (values : List String) :
    (canonValues primary values).head? = some primary := by
  unfold canonValues
  by_cases h : primary ∈ values <;> simp [h]

theorem canonValues_cons (primary : String) (values : List String) :
    ∃ t, canonValues primary values = primary :: t := by
  unfold canonValues
  by_cases h : primary ∈ values <;> simp [h]

theorem canonValues_idem (primary : String) (values : List String) :
    canonValues primary (canonValues primary values) = canonValues primary values := by
  obtain ⟨t, ht⟩ := canonValues_cons primary values
  rw [ht]
  unfold canonValues
  simp [List.erase_cons_head]

theorem canonValues_count (primary : String) (values : List String) :
    (canonValues primary values).count primary = max 1 (values.count primary) := by
  unfold canonValues
  by_cases h : primary ∈ values
  · have hpos : 0 < values.count primary := List.count_pos_iff.mpr h
    rw [if_pos h, List.count_cons_self, List.count_erase_self]
    omega
  · have hz : values.count primary = 0 := List.count_eq_zero.mpr h
    rw [if_neg h, List.count_cons_self, hz]
    decide

/-! Helper lemmas about the canonical_first step. -/

theorem canonicalFold_notMem (resolve : String → String) (dn : Dn)
    (l : List String) (m m' : AttrMap)
    (hfold : canonicalFold resolve dn l m = .ok m') (a : String) (ha : a ∉ l) :
    alookup m' a = alookup m a := by
  induction l generalizing m with
  | nil =>
      simp [canonicalFold] at hfold
      subst hfold; rfl
  | cons attr rest ih =>
      have hne : a ≠ attr := fun h => ha (h ▸ List.mem_cons_self attr rest)
      have harest : a ∉ rest := fun h => ha (List.mem_cons_of_mem attr h)
      unfold canonicalFold at hfold
      cases hg : get_rdn_value dn (resolve attr) with
      | error e => rw [hg] at hfold; cases hfold
      | ok primary =>
          rw [hg] at hfold
          dsimp only at hfold
          by_cases hp : primary = ""
          · rw [if_pos hp] at hfold
            exact ih m hfold harest
          · rw [if_neg hp] at hfold
            cases hv : alookup m attr with
            | none => rw [hv] at hfold; cases hfold
            | some values =>
                rw [hv] at hfold
                have := ih (dictSet m attr (canonValues primary values)) hfold harest
                rw [this, alookup_dictSet, if_neg hne]

theorem canonicalFold_mem (resolve : String → String) (dn : Dn)
    (l : List String) (m m' : AttrMap)
    (hfold : canonicalFold resolve dn l m = .ok m') (a : String) (ha : a ∈ l)
    (v : String) (hg : get_rdn_value dn (resolve a) = .ok v) (hv : v ≠ "") :
    ∃ vs, alookup m a = some vs ∧ alookup m' a = some (canonValues v vs) := by
  induction l generalizing m with
  | nil => cases ha
  | cons attr rest ih =>
      unfold canonicalFold at hfold
      cases hg0 : get_rdn_value dn (resolve attr) with
      | error e => rw [hg0] at hfold; cases hfold
      | ok primary =>
          rw [hg0] at hfold
          dsimp only at hfold
          by_cases hp : primary = ""
          · rw [if_pos hp] at hfold
            have haa : a ≠ attr := by
              intro h; subst h; rw [hg] at hg0
              cases hg0; exact hv hp
            have harest : a ∈ rest := by
              cases List.mem_cons.mp ha with
              | inl h => exact absurd h haa
              | inr h => exact h
            exact ih m hfold harest
          · rw [if_neg hp] at hfold
            cases hvals : alookup m attr with
            | none => rw [hvals] at hfold; cases hfold
            | some values =>
                rw [hvals] at hfold
                by_cases haa : a = attr
                · subst haa
                  have hpv : primary = v := by rw [hg] at hg0; cases hg0; rfl
                  subst hpv
                  by_cases harest : a ∈ rest
                  · obtain ⟨vs1, hvs1, hvs1'⟩ := ih _ hfold harest
                    rw [alookup_dictSet, if_pos rfl] at hvs1
                    cases hvs1
                    refine ⟨values, hvals, ?_⟩
                    rw [hvs1', canonValues_idem]
                  · have := canonicalFold_notMem resolve dn rest _ _ hfold a harest
                    rw [alookup_dictSet, if_pos rfl] at this
                    exact ⟨values, hvals, this⟩
                · have harest : a ∈ rest := by
                    cases List.mem_cons.mp ha with
                    | inl h => exact absurd h haa
                    | inr h => exact h
                  obtain ⟨vs1, hvs1, hvs1'⟩ := ih _ hfold harest
                  rw [alookup_dictSet, if_neg haa] at hvs1
                  exact ⟨vs1, hvs1, hvs1'⟩

/-! Helper lemmas about the confirmation checks. -/

theorem checkAttrs_skip (params : List (String × PyVal)) (m : AttrMap)
    (caseFold : Bool) (l1 l2 : List String)
    (hpass : ∀ a ∈ l1, checkOnePasses params m caseFold a = .ok true) :
    checkAttrs params m caseFold (l1 ++ l2) = checkAttrs params m caseFold l2 := by
  induction l1 with
  | nil => rfl
  | cons attr rest ih =>
      have h1 : checkOnePasses params m caseFold attr = .ok true :=
        hpass attr (List.mem_cons_self attr rest)
      have h2 : ∀ a ∈ rest, checkOnePasses params m caseFold a = .ok true :=
        fun a ha => hpass a (List.mem_cons_of_mem attr ha)
      rw [List.cons_append]
      simp only [checkAttrs, h1]
      exact ih h2

theorem checkAttrs_ok_mem (params : List (String × PyVal)) (m : AttrMap)
    (caseFold : Bool) (l : List String)
    (hok : checkAttrs params m caseFold l = .ok true) (a : String) (ha : a ∈ l) :
    checkOnePasses params m caseFold a = .ok true := by
  induction l with
  | nil => cases ha
  | cons attr rest ih =>
      unfold checkAttrs at hok
      cases hc : checkOnePasses params m caseFold attr with
      | error e => rw [hc] at hok; cases hok
      | ok b =>
          rw [hc] at hok
          cases b with
          | false => dsimp only at hok; cases hok
          | true =>
              dsimp only at hok
              cases List.mem_cons.mp ha with
              | inl h => rw [h]; exact hc
              | inr h => exact ih hok h

theorem checkOnePasses_verbatim (params : List (String × PyVal)) (m : AttrMap)
    (a : String) (v : PyVal)
    (hp : alookup params a = some v) (ht : v.truthy = true)
    (hok : checkOnePasses params m false a = .ok true) :
    ∃ vals, alookup m a = some vals ∧ pyStr v ∈ vals := by
  unfold checkOnePasses at hok
  rw [hp] at hok
  dsimp only at hok
  rw [if_pos ht] at hok
  cases hv : alookup m a with
  | none => rw [hv] at hok; cases hok
  | some vals =>
      rw [hv] at hok
      dsimp only at hok
      refine ⟨vals, rfl, ?_⟩
      injection hok with hd
      exact of_decide_eq_true hd

theorem checkOnePasses_caseFolded (params : List (String × PyVal)) (m : AttrMap)
    (a : String) (v : PyVal)
    (hp : alookup params a = some v) (ht : v.truthy = true)
    (hok : checkOnePasses params m true a = .ok true) :
    ∃ vals, alookup m a = some vals ∧ ∃ x ∈ vals, lowerStr x = lowerStr (pyStr v) := by
  unfold checkOnePasses at hok
  rw [hp] at hok
  dsimp only at hok
  rw [if_pos ht] at hok
  cases hv : alookup m a with
  | none => rw [hv] at hok; cases hok
  | some vals =>
      rw [hv] at hok
      dsimp only at hok
      refine ⟨vals, rfl, ?_⟩
      injection hok with hany
      obtain ⟨x, hx, hbeq⟩ := List.any_eq_true.mp hany
      exact ⟨x, hx, eq_of_beq hbeq⟩

theorem checkAttrs_all_falsy (params : List (String × PyVal)) (m : AttrMap)
    (caseFold : Bool) (l : List String)
    (hfalsy : ∀ a ∈ l, ∀ v, alookup params a = some v → v.truthy = false) :
    checkAttrs params m caseFold l = .ok true := by
  induction l with
  | nil => rfl
  | cons attr rest ih =>
      have h1 : checkOnePasses params m caseFold attr = .ok true := by
        unfold checkOnePasses
        cases hp : alookup params attr with
        | none => rfl
        | some v =>
            have := hfalsy attr (List.mem_cons_self attr rest) v hp
            dsimp only
            rw [if_neg (by rw [this]; exact Bool.false_ne_true)]
      simp only [checkAttrs, h1]
      exact ih (fun a ha v hv => hfalsy a (List.mem_cons_of_mem attr ha) v hv)

theorem checkOnePasses_falsy_skip (params : List (String × PyVal)) (m : AttrMap)
    (caseFold : Bool) (attr : String) (rest : List String) (v : PyVal)
    (hp : alookup params attr = some v) (ht : v.truthy = false) :
    checkAttrs params m caseFold (attr :: rest) = checkAttrs params m caseFold rest := by
  have h1 : checkOnePasses params m caseFold attr = .ok true := by
    unfold checkOnePasses
    rw [hp]
    dsimp only
    rw [if_neg (by rw [ht]; exact Bool.false_ne_true)]
  simp only [checkAttrs, h1]

/-! Helper lemmas about the limit_attributes step. -/

theorem limitFold_lookup (params : List (String × PyVal)) (l : List String)
    (m : PyAttrMap) (a : String) :
    alookup (limitFold params l m) a = alookup m a ∨
      ∃ v, alookup params a = some v ∧ alookup (limitFold params l m) a = some [v] := by
  induction l generalizing m with
  | nil => exact Or.inl rfl
  | cons attr rest ih =>
      unfold limitFold
      cases hp : alookup params attr with
      | none => exact ih m
      | some v =>
          cases ih (dictSet m attr [v]) with
          | inl h =>
              rw [h, alookup_dictSet]
              by_cases haa : a = attr
              · subst haa
                exact Or.inr ⟨v, hp, by rw [if_pos rfl]⟩
              · rw [if_neg haa]
                exact Or.inl rfl
          | inr h => exact Or.inr h

theorem limitFold_not_set (params : List (String × PyVal)) (l : List String)
    (m : PyAttrMap) (a : String)
    (h : a ∉ l ∨ alookup params a = none) :
    alookup (limitFold params l m) a = alookup m a := by
  induction l generalizing m with
  | nil => rfl
  | cons attr rest ih =>
      have hrest : a ∉ rest ∨ alookup params a = none := by
        cases h with
        | inl hl => exact Or.inl (fun hm => hl (List.mem_cons_of_mem attr hm))
        | inr hr => exact Or.inr hr
      unfold limitFold
      cases hp : alookup params attr with
      | none => exact ih m hrest
      | some v =>
          rw [ih (dictSet m attr [v]) hrest, alookup_dictSet]
          have haa : ¬a = attr := by
            cases h with
            | inl hl => exact fun he => hl (he ▸ List.mem_cons_self attr rest)
            | inr hr => exact fun he => by rw [he, hp] at hr; cases hr
          rw [if_neg haa]

theorem limitFold_truthy (params : List (String × PyVal)) (l : List String)
    (m : PyAttrMap) (a : String)
    (h : listTruthy (alookup m a) = true) :
    listTruthy (alookup (limitFold params l m) a) = true := by
  cases limitFold_lookup params l m a with
  | inl he => rw [he]; exact h
  | inr he =>
      obtain ⟨v, _, he⟩ := he
      rw [he]
      rfl

theorem limitFold_set (params : List (String × PyVal)) (l : List String)
    (m : PyAttrMap) (a : String) (v : PyVal)
    (ha : a ∈ l) (hp : alookup params a = some v) :
    alookup (limitFold params l m) a = some [v] := by
  induction l generalizing m with
  | nil => cases ha
  | cons attr rest ih =>
      unfold limitFold
      by_cases haa : a = attr
      · subst haa
        rw [hp]
        dsimp only
        by_cases har : a ∈ rest
        · exact ih (dictSet m a [v]) har
        · rw [limitFold_not_set params rest (dictSet m a [v]) a (Or.inl har),
            alookup_dictSet, if_pos rfl]
      · have har : a ∈ rest := by
          cases List.mem_cons.mp ha with
          | inl h => exact absurd h haa
          | inr h => exact h
        cases hpa : alookup params attr with
        | none => exact ih m har
        | some w => exact ih (dictSet m attr [w]) har

theorem alookup_strEntry (m : AttrMap) (a : String) :
    alookup (strEntry m) a = (alookup m a).map (fun l => l.map PyVal.str) := by
  induction m with
  | nil => rfl
  | cons hd tl ih =>
      obtain ⟨k, vs⟩ := hd
      show alookup ((k, vs.map PyVal.str) :: strEntry tl) a = _
      by_cases h : k = a
      · simp [alookup, h]
      · simp [alookup, h, ih]

theorem listTruthy_map {β γ : Type} (f : β → γ) (o : Option (List β)) :
    listTruthy (o.map (List.map f)) = listTruthy o := by
  cases o with
  | none => rfl
  | some l => cases l <;> rfl

theorem requiredOk_mem (required : List String) (m : AttrMap)
    (h : requiredOk required m = true) (a : String) (ha : a ∈ required) :
    listTruthy (alookup m a) = true := by
  exact List.all_eq_true.mp h a ha

/-- Inversion of a successful handle_entry run: the canonicalization
succeeded, every check passed, and the returned entry is the
canonicalized map after the limit_attributes overwrite. -/
theorem handle_entry_ok_some (S : SearchCfg) (dn : Dn) (raw : AttrMap)
    (d' : Dn) (a' : PyAttrMap)
    (h : handle_entry S dn raw = .ok (some (d', a'))) :
    ∃ m2, canonicalFold S.attmap.resolve dn S.canonical_first (S.attmap.translate raw) = .ok m2 ∧
      requiredOk S.required m2 = true ∧
      checkAttrs S.parameters m2 false S.case_sensitive = .ok true ∧
      checkAttrs S.parameters m2 true S.case_insensitive = .ok true ∧
      d' = dn ∧ a' = limitFold S.parameters S.limit_attributes (strEntry m2) := by
  unfold handle_entry at h
  cases hc : canonicalFold S.attmap.resolve dn S.canonical_first (S.attmap.translate raw) with
  | error e => rw [hc] at h; cases h
  | ok m2 =>
      rw [hc] at h
      dsimp only at h
      by_cases hreq : requiredOk S.required m2
      · rw [if_pos hreq] at h
        cases hcs : checkAttrs S.parameters m2 false S.case_sensitive with
        | error e => rw [hcs] at h; cases h
        | ok b =>
            rw [hcs] at h
            cases b with
            | false => dsimp only at h; cases h
            | true =>
                dsimp only at h
                cases hci : checkAttrs S.parameters m2 true S.case_insensitive with
                | error e => rw [hci] at h; cases h
                | ok b2 =>
                    rw [hci] at h
                    cases b2 with
                    | false => dsimp only at h; cases h
                    | true =>
                        dsimp only at h
                        injection h with h1
                        injection h1 with h2
                        exact ⟨m2, rfl, hreq, hcs, hci,
                          congrArg Prod.fst h2.symm, congrArg Prod.snd h2.symm⟩
      · rw [if_neg hreq] at h
        cases h

/-! Helper lemmas for the filter construction and the dispatcher. -/

theorem join_cons (a : String) (l : List String) :
    String.join (a :: l) = a ++ String.join l := by
  simp [String.join_eq, String.ext_iff, String.data_append]

theorem join_nil : String.join ([] : List String) = "" := rfl

theorem sep_split : (")(" : String) = ")" ++ "(" := rfl

theorem joinSep_wrap (l : List String) (hl : l ≠ []) :
    "(" ++ joinSep ")(" l ++ ")" =
      String.join (l.map (fun x => "(" ++ x ++ ")")) := by
  induction l with
  | nil => cases hl rfl
  | cons x rest ih =>
      cases rest with
      | nil => simp [joinSep, join_cons, join_nil]
      | cons y t =>
          have hne : y :: t ≠ [] := by simp
          calc "(" ++ joinSep ")(" (x :: y :: t) ++ ")"
              = "(" ++ (x ++ ")(" ++ joinSep ")(" (y :: t)) ++ ")" := rfl
            _ = ("(" ++ x ++ ")") ++ ("(" ++ joinSep ")(" (y :: t) ++ ")") := by
                have hd : (")(" : String).data = (")" : String).data ++ ("(" : String).data := rfl
                simp [String.ext_iff, String.data_append, hd, List.append_assoc]
            _ = ("(" ++ x ++ ")") ++ String.join ((y :: t).map (fun s => "(" ++ s ++ ")")) := by
                rw [ih hne]
            _ = String.join ((x :: y :: t).map (fun s => "(" ++ s ++ ")")) := by
                simp [join_cons, String.append_assoc]

theorem foldl_push {α β : Type} (f : α → β) (l : List α) (init : List β) :
    l.foldl (fun s e => s ++ [f e]) init = init ++ l.map f := by
  induction l generalizing init with
  | nil => simp
  | cons x rest ih =>
      simp only [List.foldl_cons, List.map_cons, ih, List.append_assoc,
        List.singleton_append]

/-! Helper lemmas for the name validator. -/

theorem matchesCore_iff (cs : List Char) :
    matchesCore cs = true ↔ ValidCore cs := by
  constructor
  · intro h
    cases cs with
    | nil => simp [matchesCore] at h
    | cons c1 rest =>
        unfold matchesCore at h
        dsimp only at h
        cases hlast : rest.getLast? with
        | none => rw [hlast] at h; cases h
        | some cl =>
            rw [hlast] at h
            dsimp only at h
            simp only [Bool.and_eq_true, decide_eq_true_eq] at h
            obtain ⟨⟨⟨h1, h2⟩, h3⟩, h4⟩ := h
            have hne : rest ≠ [] := by
              intro he; rw [he] at hlast; cases hlast
            have hsplit : rest.dropLast ++ [cl] = rest :=
              List.dropLast_append_getLast? cl hlast
            refine ⟨c1, rest.dropLast, cl, ?_, ?_, h1, ?_, h4⟩
            · rw [List.cons_append, hsplit]
            · have : rest.dropLast.length = rest.length - 1 := List.length_dropLast rest
              omega
            · exact fun c hc => List.all_eq_true.mp h3 c hc
  · rintro ⟨c1, mid, cl, hcs, hlen, h1, hin, hl⟩
    subst hcs
    unfold matchesCore
    rw [List.cons_append]
    dsimp only
    rw [List.getLast?_concat]
    dsimp only
    simp only [Bool.and_eq_true, decide_eq_true_eq]
    refine ⟨⟨⟨h1, ?_⟩, ?_⟩, hl⟩
    · rw [List.length_append, List.length_singleton]
      omega
    · rw [List.dropLast_concat]
      exact List.all_eq_true.mpr hin

theorem trailingNewline_iff (cs : List Char) :
    (match cs.getLast? with
     | some c => (c == '\n') && matchesCore cs.dropLast
     | none => false) = true ↔
      ∃ cs', cs = cs' ++ ['\n'] ∧ ValidCore cs' := by
  constructor
  · intro h
    cases hlast : cs.getLast? with
    | none => rw [hlast] at h; cases h
    | some c =>
        rw [hlast] at h
        dsimp only at h
        simp only [Bool.and_eq_true, beq_iff_eq] at h
        obtain ⟨hc, hm⟩ := h
        subst hc
        have hsplit : cs.dropLast ++ ['\n'] = cs :=
          List.dropLast_append_getLast? '\n' hlast
        exact ⟨cs.dropLast, hsplit.symm, (matchesCore_iff _).mp hm⟩
  · rintro ⟨cs', hcs, hvc⟩
    subst hcs
    rw [List.getLast?_concat]
    dsimp only
    simp only [Bool.and_eq_true, beq_iff_eq]
    exact ⟨trivial, by rw [List.dropLast_concat]; exact (matchesCore_iff _).mpr hvc⟩

/-! Claim theorems. -/

/-- C7 counterexample: isvalidname accepts a name with an interior
backslash and a name followed by a trailing newline, both of which the
claimed grammar rejects, so the claimed equivalence fails on these
inputs. -/
theorem c7_counterexample :
    isvalidname "a\\b" = true ∧ isvalidname_claimed "a\\b" = false ∧
    isvalidname "ab\n" = true ∧ isvalidname_claimed "ab\n" = false := by
  decide

/-- C7 (amended): isvalidname returns true exactly when the string, or the
string with one final newline removed, consists of 2 to 100 characters
whose first character is in the first class, whose last character is in
the last class, and whose interior characters are in the interior class
that additionally admits the backslash. -/
theorem c7_amended (s : String) :
    isvalidname s = true ↔
      ValidCore s.data ∨ ∃ cs, s.data = cs ++ ['\n'] ∧ ValidCore cs := by
  unfold isvalidname
  rw [Bool.or_eq_true]
  exact or_congr (matchesCore_iff s.data) (trailingNewline_iff s.data)

/-- C8: get_rdn_value raises KeyError when the attribute is missing from
the first relative-name component, instead of signalling absence as the
specification and its only caller (which tests the result for
truthiness) expect; with the attribute present it returns the value. -/
theorem c8_keyerror :
    get_rdn_value [[("cn", "foo", 1)], [("dc", "example", 1)]] "uid" =
      .error (.keyError "uid") ∧
    get_rdn_value dnAlice "uid" = .ok "alice" :=
  ⟨rfl, rfl⟩

/-- C4: with an empty parameter mapping mk_filter returns exactly the base
filter; with a non-empty mapping it returns the conjunction of the base
filter with one parenthesized attribute=value term per parameter in
mapping order, values being filter-escaped, and the escape function
maps each of the five special bytes to its escape sequence. -/
theorem c4_mk_filter (S : SearchCfg) :
    (S.parameters = [] → mk_filter S = S.filter) ∧
    (S.parameters ≠ [] →
      mk_filter S = "(&" ++ S.filter ++
        String.join (S.parameters.map
          (fun p => "(" ++ (S.attmap.resolve p.1 ++ "=" ++
            escape_filter_chars (pyStr p.2)) ++ ")")) ++ ")") ∧
    escape_filter_chars "*" = "\\2a" ∧ escape_filter_chars "(" = "\\28" ∧
    escape_filter_chars ")" = "\\29" ∧ escape_filter_chars "\\" = "\\5c" ∧
    escape_filter_chars "\x00" = "\\00" := by
  refine ⟨?_, ?_, rfl, rfl, rfl, rfl, rfl⟩
  · intro h
    unfold mk_filter
    rw [h]
  · intro h
    unfold mk_filter
    cases hp : S.parameters with
    | nil => exact absurd hp h
    | cons p ps =>
        dsimp only
        have hne : ((p :: ps).map
            (fun q => S.attmap.resolve q.1 ++ "=" ++ escape_filter_chars (pyStr q.2))) ≠ [] := by
          simp
        have hwrap := joinSep_wrap _ hne
        rw [List.map_map] at hwrap
        simp only [Function.comp_def] at hwrap
        rw [← hwrap]
        have e1 : ("(&" : String).data = ['(', '&'] := rfl
        have e2 : ("(" : String).data = ['('] := rfl
        have e3 : (")" : String).data = [')'] := rfl
        have e4 : ("))" : String).data = [')', ')'] := rfl
        simp [String.ext_iff, String.data_append, e1, e2, e3, e4]

/-- C5: a NO_SUCH_OBJECT failure on one base is absorbed by
Search.__call__: that base contributes nothing, no error propagates,
and the remaining bases are searched unchanged; in the two-base
scenario where the second base returns one valid entry, exactly that
entry is yielded. -/
theorem c5_no_such_object (S : SearchCfg) (conn : Conn) (b : String)
    (h : conn b S.scope (mk_filter S) S.attributes = .error .noSuchObject) :
    (∀ rest, searchBases S conn (b :: rest) = searchBases S conn rest) ∧
    (∀ b2 dn raw entry,
      conn b2 S.scope (mk_filter S) S.attributes = .ok [(some dn, raw)] →
      handle_entry S dn raw = .ok (some entry) →
      searchBases S conn [b, b2] = .ok [entry]) := by
  have habsorb : ∀ rest, searchBases S conn (b :: rest) = searchBases S conn rest := by
    intro rest
    conv_lhs => rw [searchBases]
    rw [h]
  refine ⟨habsorb, ?_⟩
  intro b2 dn raw entry h2 hh
  rw [habsorb [b2]]
  conv_lhs => rw [searchBases]
  rw [h2]
  dsimp only
  have hproc : processEntries S [(some dn, raw)] = .ok [entry] := by
    unfold processEntries
    dsimp only
    rw [hh]
    dsimp only
    rfl
  rw [hproc]
  dsimp only
  rw [searchBases]
  simp

/-- C6: when the search completes without a fatal error the dispatcher
writes the version tag, the action code, one record per accepted entry
in yield order, and the end-of-results marker exactly once with nothing
after it. -/
theorem c6_dispatcher (version action resultEnd : Int) (S : SearchCfg)
    (conn : Conn) (entries : List (Dn × PyAttrMap))
    (hs : searchCall S conn = .ok entries) :
    requestCall version action resultEnd S conn [] =
      .ok (WireItem.int32 version :: WireItem.int32 action ::
        (entries.map (fun e => WireItem.entryRecord e.1 e.2) ++
          [WireItem.int32 resultEnd])) ∧
    (version ≠ resultEnd → action ≠ resultEnd →
      WireItem.int32 resultEnd ∉
        (WireItem.int32 version :: WireItem.int32 action ::
          entries.map (fun e => WireItem.entryRecord e.1 e.2))) := by
  constructor
  · unfold requestCall handle_request
    rw [hs]
    dsimp only
    rw [foldl_push]
    simp [write_int32]
  · intro hv ha
    simp [Ne.symm hv, Ne.symm ha]

/-- C1 counterexample: with the DN-derived value duplicated in the input
sequence the accepted entry keeps two occurrences, and with the field
also in limit_attributes and a supplied parameter the accepted value
sequence does not start with the DN-derived value, refuting the claim
as stated. -/
theorem c1_counterexample :
    handle_entry cfgC1dup dnAlice [("uid", ["alice", "alice"])] =
      .ok (some (dnAlice, [("uid", [PyVal.str "alice", PyVal.str "alice"])])) ∧
    ¬ List.count (PyVal.str "alice") [PyVal.str "alice", PyVal.str "alice"] = 1 ∧
    handle_entry cfgC1limit dnAlice [("uid", ["alice"])] =
      .ok (some (dnAlice, [("uid", [PyVal.str "bob"])])) ∧
    get_rdn_value dnAlice "uid" = .ok "alice" ∧
    ¬ ([PyVal.str "bob"].head? = some (PyVal.str "alice")) := by
  exact ⟨rfl, by decide, rfl, rfl, by decide⟩

/-- C1 (amended): for an accepted entry and a canonical_first field with a
non-empty DN-derived value, provided the field is not overwritten by
the limit_attributes step, the output value sequence is the DN-derived
value prepended to the translated input sequence with its first
occurrence of that value removed; hence the value sits at index 0 and
occurs max(1, input count) times, which is exactly once whenever the
input contained it at most once (the values of this field in the
returned entry are directory strings). -/
theorem c1_canonical_first (S : SearchCfg) (dn : Dn) (raw : AttrMap)
    (out : Dn × PyAttrMap) (attr v : String)
    (h : handle_entry S dn raw = .ok (some out))
    (hattr : attr ∈ S.canonical_first)
    (hg : get_rdn_value dn (S.attmap.resolve attr) = .ok v)
    (hv : v ≠ "")
    (hnl : ¬(attr ∈ S.limit_attributes ∧ (alookup S.parameters attr).isSome = true)) :
    ∃ vs, alookup (S.attmap.translate raw) attr = some vs ∧
      alookup out.2 attr = some ((canonValues v vs).map PyVal.str) ∧
      (canonValues v vs).head? = some v ∧
      (canonValues v vs).count v = max 1 (vs.count v) := by
  obtain ⟨m2, hc2, hreq, hcs, hci, hd, ha'⟩ :=
    handle_entry_ok_some S dn raw out.1 out.2 (by rw [h])
  obtain ⟨vs, hvs, hm2⟩ :=
    canonicalFold_mem S.attmap.resolve dn S.canonical_first
      (S.attmap.translate raw) m2 hc2 attr hattr v hg hv
  have hlim : alookup out.2 attr = alookup (strEntry m2) attr := by
    rw [ha']
    refine limitFold_not_set S.parameters S.limit_attributes (strEntry m2) attr ?_
    rcases not_and_or.mp hnl with hni | hns
    · exact Or.inl hni
    · right
      cases hp : alookup S.parameters attr with
      | none => rfl
      | some v0 => exact absurd (by rw [hp]; rfl) hns
  refine ⟨vs, hvs, ?_, canonValues_head v vs, canonValues_count v vs⟩
  rw [hlim, alookup_strEntry, hm2]
  rfl

/-- C1 witness for the amended theorem, on the scenario from the
specification example: DN uid=alice with input values Alice, alice
gives the sequence with alice first and exactly one occurrence. -/
theorem c1_witness :
    ∃ vs, alookup (cfgC1dup.attmap.translate [("uid", ["Alice", "alice"])]) "uid" = some vs ∧
      alookup [("uid", [PyVal.str "alice", PyVal.str "Alice"])] "uid" =
        some ((canonValues "alice" vs).map PyVal.str) ∧
      (canonValues "alice" vs).head? = some "alice" ∧
      (canonValues "alice" vs).count "alice" = max 1 (vs.count "alice") := by
  have := c1_canonical_first cfgC1dup dnAlice [("uid", ["Alice", "alice"])]
    (dnAlice, [("uid", [PyVal.str "alice", PyVal.str "Alice"])]) "uid" "alice"
    rfl (by decide) rfl (by decide) (by decide)
  exact this

/-- C2: an entry is rejected exactly when one of the required,
case-sensitive or case-insensitive checks fails on the canonicalized
attributes, and every accepted entry has a non-empty value sequence for
every required field. -/
theorem c2_required (S : SearchCfg) (dn : Dn) (raw : AttrMap) (m2 : AttrMap)
    (hc : canonicalFold S.attmap.resolve dn S.canonical_first
      (S.attmap.translate raw) = .ok m2) :
    (handle_entry S dn raw = .ok none ↔
      requiredOk S.required m2 = false ∨
      (requiredOk S.required m2 = true ∧
        checkAttrs S.parameters m2 false S.case_sensitive = .ok false) ∨
      (requiredOk S.required m2 = true ∧
        checkAttrs S.parameters m2 false S.case_sensitive = .ok true ∧
        checkAttrs S.parameters m2 true S.case_insensitive = .ok false)) ∧
    (∀ d' a', handle_entry S dn raw = .ok (some (d', a')) →
      ∀ attr ∈ S.required, listTruthy (alookup a' attr) = true) := by
  constructor
  · unfold handle_entry
    rw [hc]
    dsimp only
    by_cases hreq : requiredOk S.required m2
    · rw [if_pos hreq]
      cases hcs : checkAttrs S.parameters m2 false S.case_sensitive with
      | error e => simp [hreq, hcs]
      | ok b =>
          cases b with
          | false => simp [hreq, hcs]
          | true =>
              dsimp only
              cases hci : checkAttrs S.parameters m2 true S.case_insensitive with
              | error e => simp [hreq, hcs, hci]
              | ok b2 => cases b2 <;> simp [hreq, hcs, hci]
    · rw [if_neg hreq]
      rw [Bool.not_eq_true] at hreq
      simp [hreq]
  · intro d' a' h attr hattr
    obtain ⟨m2', hc', hreq, hcs, hci, hd, ha'⟩ :=
      handle_entry_ok_some S dn raw d' a' h
    have hm : m2' = m2 := by
      rw [hc] at hc'
      injection hc' with he
      exact he.symm
    subst hm
    rw [ha']
    apply limitFold_truthy S.parameters S.limit_attributes (strEntry m2') attr
    rw [alookup_strEntry, listTruthy_map]
    exact requiredOk_mem S.required m2' hreq attr hattr

/-- C2 witness: an entry lacking the required uid field is rejected, and a
concrete accepted entry has a non-empty uid sequence. -/
theorem c2_witness :
    handle_entry cfgC2 dnAlice [] = .ok none ∧
    listTruthy (alookup [("uid", [PyVal.str "alice"])] "uid") = true := by
  constructor
  · exact (c2_required cfgC2 dnAlice [] [] rfl).1.mpr (Or.inl (by decide))
  · exact (c2_required cfgC2 dnAlice [("uid", ["alice"])]
      [("uid", ["alice"])] rfl).2 dnAlice [("uid", [PyVal.str "alice"])] rfl "uid"
      (by decide)

/-- C3 counterexample: a case-sensitive field with the supplied falsy
parameter value (the empty string) is accepted even though its value
sequence contains no match; an integer parameter is only confirmed
against its string form, so the accepted sequence does not contain the
parameter value itself; and when the field is also overwritten by
limit_attributes the accepted sequence holds the raw integer and not
its string form. -/
theorem c3_counterexample :
    handle_entry cfgC3 dnAlice [("uid", ["alice"])] =
      .ok (some (dnAlice, [("uid", [PyVal.str "alice"])])) ∧
    alookup cfgC3.parameters "uid" = some (.str "") ∧
    ¬ (PyVal.str (pyStr (.str "")) ∈ [PyVal.str "alice"]) ∧
    handle_entry cfgC3int dnAlice [("uidNumber", ["1000"])] =
      .ok (some (dnAlice, [("uidNumber", [PyVal.str "1000"])])) ∧
    alookup cfgC3int.parameters "uidNumber" = some (.int 1000) ∧
    ¬ (PyVal.int 1000 ∈ [PyVal.str "1000"]) ∧
    handle_entry cfgC3intLimit dnAlice [("uidNumber", ["1000"])] =
      .ok (some (dnAlice, [("uidNumber", [PyVal.int 1000])])) ∧
    ¬ (PyVal.str (pyStr (.int 1000)) ∈ [PyVal.int 1000]) := by
  exact ⟨rfl, rfl, by decide, rfl, rfl, by decide, rfl, by decide⟩

/-- C3 (amended): for a field with a truthy supplied parameter value,
every accepted entry's value sequence for that field contains the
value's string form verbatim (case_sensitive) or an element matching
it under ASCII case folding (case_insensitive) when the field is not
overwritten by the limit_attributes step; a field in limit_attributes
with a supplied parameter ends up as exactly the one-element sequence
holding the raw parameter value; and an entry on which the
case-sensitive or the case-insensitive loop fails is rejected. -/
theorem c3_case_match (S : SearchCfg) (dn : Dn) (raw : AttrMap)
    (attr : String) (v : PyVal) (m2 : AttrMap) :
    (∀ d' a', handle_entry S dn raw = .ok (some (d', a')) →
      alookup S.parameters attr = some v → v.truthy = true →
      (attr ∈ S.case_sensitive → attr ∉ S.limit_attributes →
        ∃ vals, alookup a' attr = some vals ∧ PyVal.str (pyStr v) ∈ vals) ∧
      (attr ∈ S.case_insensitive → attr ∉ S.limit_attributes →
        ∃ vals, alookup a' attr = some vals ∧
          ∃ x, PyVal.str x ∈ vals ∧ lowerStr x = lowerStr (pyStr v)) ∧
      (attr ∈ S.limit_attributes → alookup a' attr = some [v])) ∧
    (canonicalFold S.attmap.resolve dn S.canonical_first
        (S.attmap.translate raw) = .ok m2 →
      requiredOk S.required m2 = true →
      (checkAttrs S.parameters m2 false S.case_sensitive = .ok false →
        handle_entry S dn raw = .ok none) ∧
      (checkAttrs S.parameters m2 false S.case_sensitive = .ok true →
        checkAttrs S.parameters m2 true S.case_insensitive = .ok false →
        handle_entry S dn raw = .ok none)) := by
  constructor
  · intro d' a' h hp ht
    obtain ⟨m2', hc', hreq, hcs, hci, hd, ha'⟩ :=
      handle_entry_ok_some S dn raw d' a' h
    refine ⟨?_, ?_, ?_⟩
    · intro hmem hnl
      obtain ⟨vals0, h0, hin⟩ :=
        checkOnePasses_verbatim S.parameters m2' attr v hp ht
          (checkAttrs_ok_mem S.parameters m2' false S.case_sensitive hcs attr hmem)
      refine ⟨vals0.map PyVal.str, ?_, List.mem_map_of_mem PyVal.str hin⟩
      rw [ha', limitFold_not_set S.parameters S.limit_attributes
        (strEntry m2') attr (Or.inl hnl), alookup_strEntry, h0]
      rfl
    · intro hmem hnl
      obtain ⟨vals0, h0, x, hx, hlx⟩ :=
        checkOnePasses_caseFolded S.parameters m2' attr v hp ht
          (checkAttrs_ok_mem S.parameters m2' true S.case_insensitive hci attr hmem)
      refine ⟨vals0.map PyVal.str, ?_, x, List.mem_map_of_mem PyVal.str hx, hlx⟩
      rw [ha', limitFold_not_set S.parameters S.limit_attributes
        (strEntry m2') attr (Or.inl hnl), alookup_strEntry, h0]
      rfl
    · intro hmem
      rw [ha']
      exact limitFold_set S.parameters S.limit_attributes (strEntry m2') attr v hmem hp
  · intro hc hreq
    constructor
    · intro hcs
      unfold handle_entry
      rw [hc]
      dsimp only
      rw [if_pos hreq, hcs]
    · intro hcs hci
      unfold handle_entry
      rw [hc]
      dsimp only
      rw [if_pos hreq, hcs]
      dsimp only
      rw [hci]

/-- C3 witness: a concrete accepted entry with a truthy case-sensitive and
case-insensitive parameter contains the value's string form, and for a
limit-overwritten field the accepted sequence is the raw parameter. -/
theorem c3_witness :
    (∃ vals, alookup [("uid", [PyVal.str "Alice"])] "uid" = some vals ∧
      PyVal.str (pyStr (.str "Alice")) ∈ vals) ∧
    (∃ vals, alookup [("uid", [PyVal.str "Alice"])] "uid" = some vals ∧
      ∃ x, PyVal.str x ∈ vals ∧ lowerStr x = lowerStr (pyStr (.str "Alice"))) ∧
    alookup [("uidNumber", [PyVal.int 1000])] "uidNumber" = some [PyVal.int 1000] := by
  have h := (c3_case_match cfgC3w dnAlice [("uid", ["Alice"])]
    "uid" (.str "Alice") []).1 dnAlice [("uid", [PyVal.str "Alice"])] rfl rfl rfl
  have h2 := (c3_case_match cfgC3intLimit dnAlice [("uidNumber", ["1000"])]
    "uidNumber" (.int 1000) []).1 dnAlice [("uidNumber", [PyVal.int 1000])] rfl rfl rfl
  exact ⟨h.1 (by decide) (by decide), h.2.1 (by decide) (by decide),
    h2.2.2 (by decide)⟩

/-- C9: a falsy supplied parameter value makes the confirmation check of
that field a no-op, and when every case-checked field has a missing or
falsy parameter the entry is accepted from the case-match step onward
regardless of its values. -/
theorem c9_falsy_skip (params : List (String × PyVal)) (m : AttrMap)
    (caseFold : Bool) (attr : String) (rest : List String) (v : PyVal)
    (S : SearchCfg) (dn : Dn) (raw : AttrMap) (m2 : AttrMap) :
    (alookup params attr = some v → v.truthy = false →
      checkAttrs params m caseFold (attr :: rest) =
        checkAttrs params m caseFold rest) ∧
    (canonicalFold S.attmap.resolve dn S.canonical_first
        (S.attmap.translate raw) = .ok m2 →
      requiredOk S.required m2 = true →
      (∀ a ∈ S.case_sensitive ++ S.case_insensitive, ∀ w,
        alookup S.parameters a = some w → w.truthy = false) →
      handle_entry S dn raw =
        .ok (some (dn, limitFold S.parameters S.limit_attributes (strEntry m2)))) := by
  constructor
  · intro hp ht
    exact checkOnePasses_falsy_skip params m caseFold attr rest v hp ht
  · intro hc hreq hfalsy
    have hcs : checkAttrs S.parameters m2 false S.case_sensitive = .ok true :=
      checkAttrs_all_falsy S.parameters m2 false S.case_sensitive
        (fun a ha w hw => hfalsy a (List.mem_append_left _ ha) w hw)
    have hci : checkAttrs S.parameters m2 true S.case_insensitive = .ok true :=
      checkAttrs_all_falsy S.parameters m2 true S.case_insensitive
        (fun a ha w hw => hfalsy a (List.mem_append_right _ ha) w hw)
    unfold handle_entry
    rw [hc]
    dsimp only
    rw [if_pos hreq, hcs]
    dsimp only
    rw [hci]

/-- C9 witness: an entry whose uid values do not contain the supplied
falsy parameter value is accepted. -/
theorem c9_witness :
    handle_entry cfgC9 dnAlice [("uid", ["alice"])] =
      .ok (some (dnAlice, [("uid", [PyVal.str "alice"])])) ∧
    alookup cfgC9.parameters "uid" = some (.str "") ∧
    (PyVal.str "").truthy = false := by
  refine ⟨?_, rfl, rfl⟩
  have := (c9_falsy_skip cfgC9.parameters [] false "uid" [] (.str "")
    cfgC9 dnAlice [("uid", ["alice"])] [("uid", ["alice"])]).2
    rfl rfl ?_
  · exact this
  · intro a ha w hw
    simp [cfgC9, baseCfg] at ha
    subst ha
    simp [cfgC9, baseCfg, alookup] at hw
    rw [← hw]
    rfl

/-- C10 counterexample: the entry reaches the case-match step, field b is
listed in case_sensitive with a truthy supplied parameter and is absent
from the entry, yet reconciliation returns a normal rejection because
the check of the earlier field a fails first, refuting the claim that
such an entry always raises a lookup error. -/
theorem c10_counterexample :
    handle_entry cfgC10 dnAlice [("a", ["z"])] = .ok none ∧
    canonicalFold cfgC10.attmap.resolve dnAlice cfgC10.canonical_first
      (cfgC10.attmap.translate [("a", ["z"])]) = .ok [("a", ["z"])] ∧
    requiredOk cfgC10.required [("a", ["z"])] = true ∧
    "b" ∈ cfgC10.case_sensitive ∧
    alookup cfgC10.parameters "b" = some (.str "y") ∧
    (PyVal.str "y").truthy = true ∧
    alookup [("a", ["z"])] "b" = none := by
  exact ⟨rfl, rfl, rfl, by decide, rfl, rfl, rfl⟩

/-- C10 (amended): a case-checked field with a truthy supplied parameter
that is absent from the canonicalized entry raises a KeyError provided
every field checked before it passes its check; the case_sensitive list
is checked first, then the case_insensitive list. -/
theorem c10_keyerror (S : SearchCfg) (dn : Dn) (raw : AttrMap) (m2 : AttrMap)
    (l1 l2 : List String) (attr : String) (v : PyVal)
    (hc : canonicalFold S.attmap.resolve dn S.canonical_first
      (S.attmap.translate raw) = .ok m2)
    (hreq : requiredOk S.required m2 = true)
    (hp : alookup S.parameters attr = some v)
    (ht : v.truthy = true)
    (habs : alookup m2 attr = none) :
    (S.case_sensitive = l1 ++ attr :: l2 →
      (∀ a ∈ l1, checkOnePasses S.parameters m2 false a = .ok true) →
      handle_entry S dn raw = .error (.keyError attr)) ∧
    (checkAttrs S.parameters m2 false S.case_sensitive = .ok true →
      S.case_insensitive = l1 ++ attr :: l2 →
      (∀ a ∈ l1, checkOnePasses S.parameters m2 true a = .ok true) →
      handle_entry S dn raw = .error (.keyError attr)) := by
  have hfail : ∀ cf, checkOnePasses S.parameters m2 cf attr = .error (.keyError attr) := by
    intro cf
    unfold checkOnePasses
    rw [hp]
    dsimp only
    rw [if_pos ht, habs]
  constructor
  · intro hsplit hpass
    unfold handle_entry
    rw [hc]
    dsimp only
    rw [if_pos hreq, hsplit, checkAttrs_skip S.parameters m2 false l1 (attr :: l2) hpass]
    simp only [checkAttrs, hfail false]
  · intro hcs hsplit hpass
    unfold handle_entry
    rw [hc]
    dsimp only
    rw [if_pos hreq, hcs]
    dsimp only
    rw [hsplit, checkAttrs_skip S.parameters m2 true l1 (attr :: l2) hpass]
    simp only [checkAttrs, hfail true]

/-- C10 witness for the amended theorem: with the earlier field a passing
its check, the absent field b raises KeyError. -/
theorem c10_witness :
    handle_entry cfgC10w dnAlice [("a", ["z"])] = .error (.keyError "b") := by
  refine (c10_keyerror cfgC10w dnAlice [("a", ["z"])] [("a", ["z"])]
    ["a"] [] "b" (.str "y") rfl rfl rfl rfl rfl).1 (by decide) ?_
  intro a ha
  simp at ha
  subst ha
  rfl

/-- C4 witness: the filter built from two concrete parameters, with the
asterisk escaped, and the parameterless filter. -/
theorem c4_witness :
    mk_filter cfgC4 =
      "(&(objectClass=posixAccount)(uid=a\\2ac)(uidNumber=1000))" ∧
    mk_filter baseCfg = baseCfg.filter := by
  constructor
  · rw [(c4_mk_filter cfgC4).2.1 (by decide)]
    rfl
  · exact (c4_mk_filter baseCfg).1 rfl

/-- C5 witness: base b1 raises NO_SUCH_OBJECT, base b2 returns one valid
entry, and exactly that entry is yielded. -/
theorem c5_witness :
    searchBases cfgC5 connC5 ["b1", "b2"] =
      .ok [(dnAlice, [("uid", [PyVal.str "alice"])])] := by
  exact (c5_no_such_object cfgC5 connC5 "b1" rfl).2 "b2" dnAlice
    [("uid", ["alice"])] (dnAlice, [("uid", [PyVal.str "alice"])]) rfl rfl

/-- C6 witness: a zero-match request still produces the version tag, the
action code and the end-of-results marker, with the marker occurring
nowhere else. -/
theorem c6_witness :
    requestCall 1 65538 3 cfgC6 connC6 [] =
      .ok [WireItem.int32 1, WireItem.int32 65538, WireItem.int32 3] ∧
    WireItem.int32 3 ∉ [WireItem.int32 1, WireItem.int32 65538] := by
  have h := c6_dispatcher 1 65538 3 cfgC6 connC6 [] rfl
  exact ⟨h.1, h.2 (by decide) (by decide)⟩

end Pynslcd
